import Mathlib

/-!
Verification of the PR-review tool: a shallow embedding of the sandboxed
review lifecycle (src/index.ts, src/agent.ts, src/sandbox.ts, src/github.ts,
src/display.ts, src/types.ts) and of the maintenance snapshot refresh
(scripts/update-volume.ts).  Pure control flow is translated into Lean
functions; external effects (shell commands, GitHub calls, terminal output,
sandbox teardown) are reified as explicit effect values so that theorems can
quantify over the traces a run produces.
-/

namespace ReviewSpec

/-! ## Data model (src/types.ts) -/

/-- `PRRepo` from types.ts: a repository reference carried on each PR side. -/
structure PRRepo where
  full_name : String
  clone_url : String
deriving DecidableEq, Repr

/-- The `head` / `base` objects of `PRData` in types.ts:
`\x7b ref: string; sha: string; repo: PRRepo \x7d`. -/
structure PRBranch where
  ref : String
  sha : String
  repo : PRRepo
deriving DecidableEq, Repr

/-- The `user` object of `PRData` in types.ts. -/
structure PRUser where
  login : String
deriving DecidableEq, Repr

/-- `PRData` from types.ts. -/
structure PRData where
  number : Nat
  title : String
  body : String
  head : PRBranch
  base : PRBranch
  user : PRUser
  html_url : String
  additions : Nat
  deletions : Nat
  changed_files : Nat
deriving DecidableEq, Repr

/-- `ReviewComment` from types.ts.  `line` is the last line of the range;
`start_line` is the optional first line of a multi-line range, documented in
the source as "When present, must be < `line`". -/
structure ReviewComment where
  path : String
  line : Nat
  start_line : Option Nat
  body : String
deriving DecidableEq, Repr

/-- The verdict union type of `Review` in types.ts. -/
inductive Verdict where
  | comment
  | approve
  | request_changes
deriving DecidableEq, Repr

/-- `Review` from types.ts — the ReviewProposal payload of the pausing tool. -/
structure Review where
  summary : String
  verdict : Verdict
  comments : List ReviewComment
deriving DecidableEq, Repr

/-! ## Session setup (src/sandbox.ts, `setupSandbox`) -/

/-- Result record of `sandbox.execute` (exit code and captured output). -/
structure ExecResult where
  exitCode : Int
  output : String
deriving DecidableEq, Repr

/-- Result of `setupSandbox`. -/
structure SetupResult where
  depsInstalled : Bool
deriving DecidableEq, Repr

/-- The shell commands issued by `setupSandbox`, in structured form.
Each constructor corresponds to one `sandbox.execute` template string:
* `addOrSetRemote remote url` — `git remote add remote url || git remote set-url remote url`
* `parallelFetch hr href br bref` — `git fetch hr href:refs/remotes/hr/href --depth 200 &
  git fetch br bref:refs/remotes/br/bref --depth 200 & wait` (two background jobs joined)
* `checkoutB branch remote ref` — `git checkout -B branch remote/ref`
* `pnpmInstall` — `pnpm install --store-dir ... --prefer-offline <filters>` -/
inductive SetupCommand where
  | addOrSetRemote (remote : String) (url : String)
  | parallelFetch (headRemote : String) (headRef : String) (baseRemote : String) (baseRef : String)
  | checkoutB (branch : String) (remote : String) (ref : String)
  | pnpmInstall
deriving DecidableEq, Repr

/-- `isFork` local of `setupSandbox`:
`pr.head.repo.full_name !== pr.base.repo.full_name`. -/
def isFork (pr : PRData) : Bool :=
  pr.head.repo.full_name ≠ pr.base.repo.full_name

/-- `headRemote` local of `setupSandbox`: `isFork ? "pr-fork" : "origin"`. -/
def headRemoteName (pr : PRData) : String :=
  if isFork pr then "pr-fork" else "origin"

/-- Step 1 command of `setupSandbox` (only issued when `isFork`). -/
def addRemoteCommand (pr : PRData) : SetupCommand :=
  SetupCommand.addOrSetRemote "pr-fork" pr.head.repo.clone_url

/-- Step 2 command of `setupSandbox`: fetch head from the head remote and base
from origin as parallel background jobs. -/
def fetchCommand (pr : PRData) : SetupCommand :=
  SetupCommand.parallelFetch (headRemoteName pr) pr.head.ref "origin" pr.base.ref

/-- Step 3 command of `setupSandbox`:
`git checkout -B <head.ref> <headRemote>/<head.ref>`. -/
def checkoutCommand (pr : PRData) : SetupCommand :=
  SetupCommand.checkoutB pr.head.ref (headRemoteName pr) pr.head.ref

/-- `setupSandbox` from src/sandbox.ts, parameterised by the sandbox executor
`exec` (what `sandbox.execute` returns per command).  Returns the list of
commands issued, in order, together with the outcome: a thrown error for a
failed remote add / fetch / checkout, otherwise `ok` with the install status
(`depsInstalled := false` when `pnpm install` exits non-zero). -/
def setupSandbox (pr : PRData) (exec : SetupCommand → ExecResult) :
    List SetupCommand × Except String SetupResult :=
  let pre : List SetupCommand := if isFork pr then [addRemoteCommand pr] else []
  if isFork pr ∧ (exec (addRemoteCommand pr)).exitCode ≠ 0 then
    (pre, Except.error ("Failed to add fork remote: " ++ (exec (addRemoteCommand pr)).output))
  else
    if (exec (fetchCommand pr)).exitCode ≠ 0 then
      (pre ++ [fetchCommand pr],
        Except.error ("Failed to fetch branches: " ++ (exec (fetchCommand pr)).output))
    else
      if (exec (checkoutCommand pr)).exitCode ≠ 0 then
        (pre ++ [fetchCommand pr, checkoutCommand pr],
          Except.error ("Failed to checkout PR branch: " ++ (exec (checkoutCommand pr)).output))
      else
        if (exec SetupCommand.pnpmInstall).exitCode ≠ 0 then
          (pre ++ [fetchCommand pr, checkoutCommand pr, SetupCommand.pnpmInstall],
            Except.ok { depsInstalled := false })
        else
          (pre ++ [fetchCommand pr, checkoutCommand pr, SetupCommand.pnpmInstall],
            Except.ok { depsInstalled := true })

/-! ## Agent loop (src/agent.ts, phase 1: the stream-consuming loop) -/

/-- A tool call carried on a streamed AI message.  The source dispatches on
`tc.name === "submit_review"`; `submitReview` models a call with that name
(its `args` payload read as a `Review`), and `other` models any
differently-named call (its arguments rendered as a string). -/
inductive ToolCall where
  | submitReview (args : Review)
  | other (name : String) (args : String)
deriving DecidableEq, Repr

/-- Message kinds the loop distinguishes: `AIMessage.isInstance(msg)` /
`msg.type === "ai"`, tool result messages (`ToolMessage` / `"tool"`), and
everything else. -/
inductive MsgKind where
  | ai
  | toolResult
  | otherKind
deriving DecidableEq, Repr

/-- One streamed message: the optional `msg.id` used for replay
deduplication, the kind, the tool calls (relevant on AI messages), and the
textual content. -/
structure Msg where
  id : Option String
  kind : MsgKind
  toolCalls : List ToolCall
  content : String
deriving DecidableEq, Repr

/-- The loop's mutable state: `pendingReview` and the `seenMessageIds` set
(modelled as a list). -/
structure LoopState where
  pendingReview : Option Review
  seenMessageIds : List String
deriving DecidableEq, Repr

/-- Initial loop state (`let pendingReview = null; const seenMessageIds = new Set()`). -/
def initLoopState : LoopState := { pendingReview := none, seenMessageIds := [] }

/-- The `for (const tc of msg.tool_calls)` body restricted to its state
effect: a `submit_review` call assigns `pendingReview = tc.args`
(unconditionally — there is no guard against overwriting); every other call
only logs. -/
def applyToolCalls : LoopState → List ToolCall → LoopState
  | st, [] => st
  | st, ToolCall.submitReview r :: rest =>
    applyToolCalls { st with pendingReview := some r } rest
  | st, ToolCall.other _ _ :: rest => applyToolCalls st rest

/-- State update performed for one (non-skipped) message: tool calls are
inspected only on AI messages (`AIMessage.isInstance(msg) && msg.tool_calls?.length`). -/
def captureMsg (st : LoopState) (m : Msg) : LoopState :=
  if m.kind = MsgKind.ai then applyToolCalls st m.toolCalls else st

/-- The stream loop of `runReview` phase 1: for each message, if it carries an
id already in `seenMessageIds` it is skipped (`continue`); otherwise its id (if
any) is recorded, the message is handed to the display/capture logic, and the
loop proceeds.  Returns the final state and the messages that passed the
dedup filter (i.e. were rendered), in arrival order. -/
def runStream : LoopState → List Msg → LoopState × List Msg
  | st, [] => (st, [])
  | st, m :: ms =>
    match m.id with
    | some i =>
      if i ∈ st.seenMessageIds then
        runStream st ms
      else
        let st1 := captureMsg { st with seenMessageIds := i :: st.seenMessageIds } m
        let rest := runStream st1 ms
        (rest.1, m :: rest.2)
    | none =>
      let st1 := captureMsg st m
      let rest := runStream st1 ms
      (rest.1, m :: rest.2)

/-- The messages of a stream that the loop renders (dedup survivors), starting
from the initial state. -/
def processedMessages (stream : List Msg) : List Msg :=
  (runStream initLoopState stream).2

/-- The `pendingReview` value held after the stream is exhausted — the
captured ReviewProposal of the run (if any). -/
def capturedProposal (stream : List Msg) : Option Review :=
  (runStream initLoopState stream).1.pendingReview

/-! ## Approval gate and posting (src/agent.ts phase 2, src/display.ts, src/github.ts) -/

/-- Result of a computation that may finish normally, throw, or terminate the
whole process via `process.exit` (which unwinds nothing: no `finally` block of
an enclosing `try` runs once it is called). -/
inductive Outcome (α : Type) where
  | ok (a : α)
  | err (msg : String)
  | exited (code : Nat)
deriving DecidableEq, Repr

/-- The human's possible reaction to the clack `confirm` prompt: an
affirmative answer, a negative answer, or a cancellation signal (Ctrl+C),
which clack reports as a cancel value. -/
inductive ApprovalResponse where
  | yes
  | no
  | cancelInterrupt
deriving DecidableEq, Repr

/-- `confirmAction` from src/display.ts: `confirm(\x7b message \x7d)`; on
`isCancel(result)` it prints a cancel note and calls `process.exit(0)`,
otherwise it returns the boolean answer. -/
def confirmAction (resp : ApprovalResponse) : Outcome Bool :=
  match resp with
  | ApprovalResponse.yes => Outcome.ok true
  | ApprovalResponse.no => Outcome.ok false
  | ApprovalResponse.cancelInterrupt => Outcome.exited 0

/-- The externally visible actions of one run, in order of occurrence:
starting the agent (whose system prompt embeds the `depsInstalled` flag),
rendering a streamed message, displaying the proposed review, calling
`postReviewToGitHub`, and closing the sandbox (`await close()`). -/
inductive Effect where
  | startAgent (depsInstalled : Bool)
  | renderMessage (m : Msg)
  | displayReview (r : Review)
  | postReview (owner : String) (repo : String) (prNumber : Nat) (commitSha : String) (r : Review)
  | closeSandbox
deriving DecidableEq, Repr

/-- Phase 2 of `runReview` (src/agent.ts): if no review is pending, report
and return null; otherwise display the proposal, ask `confirmAction`, and on
an affirmative answer call `postReviewToGitHub` exactly once with the captured
proposal (a post failure is caught and yields null; nothing is retried).
`postResult` stands for what that GitHub call returns (`ok url` or a thrown
error). -/
def phase2 (owner repo : String) (prNumber : Nat) (commitSha : String)
    (pendingReview : Option Review) (resp : ApprovalResponse)
    (postResult : Except String String) : List Effect × Outcome (Option Review) :=
  match pendingReview with
  | none => ([], Outcome.ok none)
  | some review =>
    match confirmAction resp with
    | Outcome.exited code => ([Effect.displayReview review], Outcome.exited code)
    | Outcome.err e => ([Effect.displayReview review], Outcome.err e)
    | Outcome.ok approved =>
      if approved then
        match postResult with
        | Except.ok _url =>
          ([Effect.displayReview review,
            Effect.postReview owner repo prNumber commitSha review],
            Outcome.ok (some review))
        | Except.error _e =>
          ([Effect.displayReview review,
            Effect.postReview owner repo prNumber commitSha review],
            Outcome.ok none)
      else
        ([Effect.displayReview review], Outcome.ok none)

/-- `runReview` from src/agent.ts: phase 1 consumes the stream (deduplicating
replays and capturing the pausing tool call), phase 2 runs the approval gate.
The effect trace records the agent start, every rendered message, and the
phase-2 actions. -/
def runReview (owner repo : String) (pr : PRData) (depsInstalled : Bool)
    (stream : List Msg) (resp : ApprovalResponse) (postResult : Except String String) :
    List Effect × Outcome (Option Review) :=
  let phase1 := runStream initLoopState stream
  let streamEffs := Effect.startAgent depsInstalled :: phase1.2.map Effect.renderMessage
  let gate := phase2 owner repo pr.number pr.head.sha phase1.1.pendingReview resp postResult
  (streamEffs ++ gate.1, gate.2)

/-- `main` from src/index.ts, from sandbox creation onward:
`const \x7b sandbox, close \x7d = await createSandbox(); try \x7b setup; runReview \x7d
finally \x7b await close() \x7d`.  The `finally` appends the `closeSandbox`
effect on normal completion and on thrown errors — but not when
`process.exit` was called inside the body (an `Outcome.exited` value), since
`process.exit` terminates the process immediately without running `finally`
blocks.  `agentThrows` models the agent stream itself throwing before any
proposal is captured. -/
def mainRun (owner repo : String) (pr : PRData) (exec : SetupCommand → ExecResult)
    (agentThrows : Bool) (stream : List Msg) (resp : ApprovalResponse)
    (postResult : Except String String) : List Effect × Outcome Unit :=
  match (setupSandbox pr exec).2 with
  | Except.error e => ([Effect.closeSandbox], Outcome.err e)
  | Except.ok setup =>
    if agentThrows then ([Effect.closeSandbox], Outcome.err "agent error")
    else
      match runReview owner repo pr setup.depsInstalled stream resp postResult with
      | (effs, Outcome.exited code) => (effs, Outcome.exited code)
      | (effs, Outcome.ok _) => (effs ++ [Effect.closeSandbox], Outcome.ok ())
      | (effs, Outcome.err e) => (effs ++ [Effect.closeSandbox], Outcome.err e)

/-! ## Review request body (src/github.ts, `postReviewToGitHub`) -/

/-- One element of the `comments` array sent to the GitHub review endpoint.
The type lists exactly the fields the source puts in the mapped object:
`path`, `line`, `side`, `body`. -/
structure PostedComment where
  path : String
  line : Nat
  side : String
  body : String
deriving DecidableEq, Repr

/-- The request body built by `postReviewToGitHub`: `commit_id`, `body`,
`event`, and — only when the review has at least one comment — `comments`. -/
structure ReviewRequestBody where
  commit_id : String
  body : String
  event : String
  comments : Option (List PostedComment)
deriving DecidableEq, Repr

/-- The `eventMap` lookup of `postReviewToGitHub` (total over the verdict
union, so the `?? "COMMENT"` fallback is unreachable). -/
def eventMap : Verdict → String
  | Verdict.comment => "COMMENT"
  | Verdict.approve => "APPROVE"
  | Verdict.request_changes => "REQUEST_CHANGES"

/-- The per-comment mapping of `postReviewToGitHub`:
`\x7b path: c.path, line: c.line, side: "RIGHT", body: c.body \x7d`. -/
def transmitComment (c : ReviewComment) : PostedComment :=
  { path := c.path, line := c.line, side := "RIGHT", body := c.body }

/-- The body construction of `postReviewToGitHub`: base fields always, and
`body.comments = review.comments.map(...)` only under
`if (review.comments.length > 0)`. -/
def postReviewRequestBody (commitSha : String) (review : Review) : ReviewRequestBody :=
  { commit_id := commitSha
    body := review.summary
    event := eventMap review.verdict
    comments :=
      if review.comments.length > 0 then some (review.comments.map transmitComment)
      else none }

/-! ## Maintenance refresh (scripts/update-volume.ts) -/

/-- Effects of the tail of the `update-volume` `main` (from the post-build
dirty-tree check onward): the forced reset
(`git checkout -- . && git clean -fd`), the unit-test step, one snapshot
deletion attempt, one backoff wait (seconds), and the final snapshot
creation (`client.volumes.snapshot`). -/
inductive MaintEffect where
  | resetTree
  | runTests
  | deleteSnapshotAttempt (attempt : Nat)
  | backoffWait (seconds : Nat)
  | createSnapshot
deriving DecidableEq, Repr

/-- What one `client.snapshots.delete` call does: succeed, or throw a
platform error carrying an HTTP status and an optional error code. -/
inductive DeleteOutcome where
  | success
  | failure (status : Nat) (code : Option String)
deriving DecidableEq, Repr

/-- `MAX_RETRIES` from update-volume.ts. -/
def MAX_RETRIES : Nat := 5

/-- The retryability test of the snapshot-delete catch block:
`status >= 500 || code === "SNAPSHOT_IN_USE"`. -/
def isRetryable (status : Nat) (code : Option String) : Bool :=
  decide (500 ≤ status) || decide (code = some "SNAPSHOT_IN_USE")

/-- The body of `for (let attempt = 1; attempt <= MAX_RETRIES; attempt++)`:
try the deletion; on success break; on a retryable error with
`attempt < MAX_RETRIES` wait `attempt * 5` seconds and retry, otherwise
rethrow.  `remaining` counts the loop iterations left
(`MAX_RETRIES + 1 - attempt`). -/
def deleteLoopAux (outcome : Nat → DeleteOutcome) :
    Nat → Nat → List MaintEffect × Except String Unit
  | _, 0 => ([], Except.ok ())
  | attempt, remaining + 1 =>
    match outcome attempt with
    | DeleteOutcome.success => ([MaintEffect.deleteSnapshotAttempt attempt], Except.ok ())
    | DeleteOutcome.failure status code =>
      if isRetryable status code ∧ attempt < MAX_RETRIES then
        (MaintEffect.deleteSnapshotAttempt attempt :: MaintEffect.backoffWait (attempt * 5)
          :: (deleteLoopAux outcome (attempt + 1) remaining).1,
         (deleteLoopAux outcome (attempt + 1) remaining).2)
      else
        ([MaintEffect.deleteSnapshotAttempt attempt], Except.error "Snapshot deletion failed")

/-- The whole snapshot-deletion retry loop, starting at attempt 1. -/
def snapshotDeleteRetry (outcome : Nat → DeleteOutcome) :
    List MaintEffect × Except String Unit :=
  deleteLoopAux outcome 1 MAX_RETRIES

/-- Inputs driving the tail of a maintenance refresh: the trimmed-before-use
outputs of the two `git status --porcelain` probes, whether the unit tests
pass, whether an old snapshot exists, and the outcome of each deletion
attempt. -/
structure VolumeEnv where
  /-- trimmed output of `git status --porcelain` right after the build -/
  statusAfterBuild : String
  /-- trimmed output of the re-check after the forced reset -/
  statusAfterReset : String
  testsPass : Bool
  hasExistingSnapshot : Bool
  deleteOutcome : Nat → DeleteOutcome

/-- The steps of update-volume.ts after the dirty-tree guard succeeded:
run the unit tests (failures are caught and only logged), delete the old
snapshot with the retry loop when one exists, then create the new snapshot. -/
def refreshAfterClean (env : VolumeEnv) (pre : List MaintEffect) :
    List MaintEffect × Except String Unit :=
  if env.hasExistingSnapshot then
    match (snapshotDeleteRetry env.deleteOutcome).2 with
    | Except.error e =>
      (pre ++ [MaintEffect.runTests] ++ (snapshotDeleteRetry env.deleteOutcome).1,
        Except.error e)
    | Except.ok _ =>
      (pre ++ [MaintEffect.runTests] ++ (snapshotDeleteRetry env.deleteOutcome).1
        ++ [MaintEffect.createSnapshot], Except.ok ())
  else
    (pre ++ [MaintEffect.runTests] ++ [MaintEffect.createSnapshot], Except.ok ())

/-- Section 6b onward of the `update-volume` `main`: if the (trimmed)
`git status --porcelain` output is non-empty after the build, forcibly
reset the tree and re-check; if still dirty, throw
("Failed to restore clean git state after build") before any snapshot is
created; otherwise continue to tests and snapshot replacement.  The
`VolumeEnv` status fields hold the already-`.trim()`-ed probe outputs, so
dirtiness is the JavaScript truthiness test `≠ ""`. -/
def refreshTail (env : VolumeEnv) : List MaintEffect × Except String Unit :=
  if env.statusAfterBuild ≠ "" then
    if env.statusAfterReset ≠ "" then
      ([MaintEffect.resetTree],
        Except.error "Failed to restore clean git state after build.")
    else
      refreshAfterClean env [MaintEffect.resetTree]
  else
    refreshAfterClean env []

/-! ## Vocabulary for the stream-loop claims -/

/-- The `submit_review` payloads among a list of tool calls, in order. -/
def submitArgs : List ToolCall → List Review
  | [] => []
  | ToolCall.submitReview r :: rest => r :: submitArgs rest
  | ToolCall.other _ _ :: rest => submitArgs rest

/-- The `submit_review` payloads a single message contributes (tool calls are
only inspected on AI messages). -/
def msgSubmits (m : Msg) : List Review :=
  if m.kind = MsgKind.ai then submitArgs m.toolCalls else []

/-- All `submit_review` payloads of a message list, in arrival order. -/
def streamSubmits : List Msg → List Review
  | [] => []
  | m :: ms => msgSubmits m ++ streamSubmits ms

/-- The last element of a list, or a fallback when the list is empty. -/
def lastOr (l : List Review) (dflt : Option Review) : Option Review :=
  match l with
  | [] => dflt
  | r :: rest => lastOr rest (some r)

/-- Number of messages in a list whose identifier is `some i`. -/
def countId (i : String) (ms : List Msg) : Nat :=
  ms.countP fun m => decide (m.id = some i)

/-! ## Stream-loop lemmas -/

theorem applyToolCalls_seen (tcs : List ToolCall) (st : LoopState) :
    (applyToolCalls st tcs).seenMessageIds = st.seenMessageIds := by
  induction tcs generalizing st with
  | nil => rfl
  | cons tc rest ih =>
    cases tc with
    | submitReview r => exact ih _
    | other n a => exact ih _

theorem applyToolCalls_pending (tcs : List ToolCall) (st : LoopState) :
    (applyToolCalls st tcs).pendingReview = lastOr (submitArgs tcs) st.pendingReview := by
  induction tcs generalizing st with
  | nil => rfl
  | cons tc rest ih =>
    cases tc with
    | submitReview r => exact ih _
    | other n a => exact ih _

theorem captureMsg_seen (st : LoopState) (m : Msg) :
    (captureMsg st m).seenMessageIds = st.seenMessageIds := by
  unfold captureMsg
  split
  · exact applyToolCalls_seen _ _
  · rfl

theorem captureMsg_pending (st : LoopState) (m : Msg) :
    (captureMsg st m).pendingReview = lastOr (msgSubmits m) st.pendingReview := by
  unfold captureMsg msgSubmits
  split
  · exact applyToolCalls_pending _ _
  · rfl

theorem lastOr_append (a b : List Review) (d : Option Review) :
    lastOr (a ++ b) d = lastOr b (lastOr a d) := by
  induction a generalizing d with
  | nil => rfl
  | cons r a ih => simpa [lastOr] using ih (some r)

/-- The final `pendingReview` is the last `submit_review` payload among the
messages that passed the dedup filter, falling back to the initial value. -/
theorem runStream_pending (ms : List Msg) (st : LoopState) :
    (runStream st ms).1.pendingReview =
      lastOr (streamSubmits (runStream st ms).2) st.pendingReview := by
  induction ms generalizing st with
  | nil => rfl
  | cons m ms ih =>
    cases hid : m.id with
    | some i =>
      by_cases hmem : i ∈ st.seenMessageIds
      · simpa [runStream, hid, hmem] using ih st
      · have hcap : (captureMsg { st with seenMessageIds := i :: st.seenMessageIds } m).pendingReview
            = lastOr (msgSubmits m) st.pendingReview := captureMsg_pending _ _
        simp only [runStream, hid, hmem, if_neg, not_false_iff, streamSubmits]
        rw [lastOr_append, ih, hcap]
    | none =>
      have hcap : (captureMsg st m).pendingReview = lastOr (msgSubmits m) st.pendingReview :=
        captureMsg_pending _ _
      simp only [runStream, hid, streamSubmits]
      rw [lastOr_append, ih, hcap]

theorem runStream_cons_some_skip (st : LoopState) (m : Msg) (ms : List Msg) (i : String)
    (hid : m.id = some i) (hmem : i ∈ st.seenMessageIds) :
    runStream st (m :: ms) = runStream st ms := by
  simp [runStream, hid, hmem]

theorem runStream_cons_some_new (st : LoopState) (m : Msg) (ms : List Msg) (i : String)
    (hid : m.id = some i) (hmem : i ∉ st.seenMessageIds) :
    runStream st (m :: ms) =
      ((runStream (captureMsg { st with seenMessageIds := i :: st.seenMessageIds } m) ms).1,
        m :: (runStream (captureMsg { st with seenMessageIds := i :: st.seenMessageIds } m) ms).2) := by
  simp [runStream, hid, hmem]

theorem runStream_cons_none (st : LoopState) (m : Msg) (ms : List Msg)
    (hid : m.id = none) :
    runStream st (m :: ms) =
      ((runStream (captureMsg st m) ms).1, m :: (runStream (captureMsg st m) ms).2) := by
  simp [runStream, hid]

theorem countId_cons (i : String) (m : Msg) (ms : List Msg) :
    countId i (m :: ms) = countId i ms + (if m.id = some i then 1 else 0) := by
  simp [countId, List.countP_cons]

/-- Once an id is in the seen-set, the loop renders no further message with
that id. -/
theorem runStream_countId_of_seen (ms : List Msg) (st : LoopState) (i : String)
    (h : i ∈ st.seenMessageIds) : countId i (runStream st ms).2 = 0 := by
  induction ms generalizing st with
  | nil => rfl
  | cons m ms ih =>
    cases hid : m.id with
    | some j =>
      by_cases hmem : j ∈ st.seenMessageIds
      · rw [runStream_cons_some_skip st m ms j hid hmem]
        exact ih st h
      · have hne : m.id ≠ some i := by
          rw [hid]
          intro hji
          have hj : j = i := by injection hji
          subst hj
          exact hmem h
        have hseen : i ∈ (captureMsg { st with
            seenMessageIds := j :: st.seenMessageIds } m).seenMessageIds := by
          rw [captureMsg_seen]
          exact List.mem_cons_of_mem _ h
        rw [runStream_cons_some_new st m ms j hid hmem, countId_cons, if_neg hne, ih _ hseen]
    | none =>
      have hne : m.id ≠ some i := by
        rw [hid]
        exact fun hc => Option.noConfusion hc
      have hseen : i ∈ (captureMsg st m).seenMessageIds := by
        rw [captureMsg_seen]
        exact h
      rw [runStream_cons_none st m ms hid, countId_cons, if_neg hne, ih _ hseen]

/-- Starting from a state that has not seen id `i`, the loop renders messages
with id `i` exactly `min 1 (number of occurrences)` times: never more than
once, and exactly once when the stream carries the id at all. -/
theorem runStream_countId (ms : List Msg) (st : LoopState) (i : String)
    (h : i ∉ st.seenMessageIds) :
    countId i (runStream st ms).2 = min 1 (countId i ms) := by
  induction ms generalizing st with
  | nil => rfl
  | cons m ms ih =>
    cases hid : m.id with
    | some j =>
      by_cases hmem : j ∈ st.seenMessageIds
      · have hne : m.id ≠ some i := by
          rw [hid]
          intro hji
          have hj : j = i := by injection hji
          subst hj
          exact h hmem
        rw [runStream_cons_some_skip st m ms j hid hmem, countId_cons, if_neg hne, ih st h]
        omega
      · by_cases hij : j = i
        · subst hij
          have hseen : j ∈ (captureMsg { st with
              seenMessageIds := j :: st.seenMessageIds } m).seenMessageIds := by
            rw [captureMsg_seen]
            exact List.mem_cons_self _ _
          rw [runStream_cons_some_new st m ms j hid hmem, countId_cons, countId_cons,
            if_pos hid, runStream_countId_of_seen ms _ j hseen]
          omega
        · have hne : m.id ≠ some i := by
            rw [hid]
            intro hji
            have hj : j = i := by injection hji
            exact hij hj
          have hnotseen : i ∉ (captureMsg { st with
              seenMessageIds := j :: st.seenMessageIds } m).seenMessageIds := by
            rw [captureMsg_seen]
            intro hin
            rcases List.mem_cons.mp hin with hji | hin
            · exact hij hji.symm
            · exact h hin
          rw [runStream_cons_some_new st m ms j hid hmem, countId_cons, countId_cons,
            if_neg hne, ih _ hnotseen]
          omega
    | none =>
      have hne : m.id ≠ some i := by
        rw [hid]
        exact fun hc => Option.noConfusion hc
      have hnotseen : i ∉ (captureMsg st m).seenMessageIds := by
        rw [captureMsg_seen]
        exact h
      rw [runStream_cons_none st m ms hid, countId_cons, countId_cons,
        if_neg hne, ih _ hnotseen]
      omega

/-- Messages without an id pass the dedup filter unconditionally: the rendered
stream restricted to id-less messages is exactly the input stream so
restricted. -/
theorem runStream_filter_noId (ms : List Msg) (st : LoopState) :
    (runStream st ms).2.filter (fun m => m.id.isNone) =
      ms.filter (fun m => m.id.isNone) := by
  induction ms generalizing st with
  | nil => rfl
  | cons m ms ih =>
    cases hid : m.id with
    | some j =>
      by_cases hmem : j ∈ st.seenMessageIds
      · simp [runStream, hid, hmem, List.filter_cons, ih]
      · simp [runStream, hid, hmem, List.filter_cons, ih]
    | none =>
      simp [runStream, hid, List.filter_cons, ih]

/-! ## Effect-trace vocabulary -/

/-- The `postReviewToGitHub` calls recorded in an effect trace, with their
arguments `(owner, repo, prNumber, commitSha, review)`, in order. -/
def postCalls (effs : List Effect) : List (String × String × Nat × String × Review) :=
  effs.filterMap fun e =>
    match e with
    | Effect.postReview o r n s rv => some (o, r, n, s, rv)
    | _ => none

/-- Number of sandbox-close attempts recorded in an effect trace. -/
def closeCount (effs : List Effect) : Nat :=
  effs.countP fun e => decide (e = Effect.closeSandbox)

theorem postCalls_append (l1 l2 : List Effect) :
    postCalls (l1 ++ l2) = postCalls l1 ++ postCalls l2 := by
  simp [postCalls, List.filterMap_append]

theorem postCalls_stream_effs (deps : Bool) (ms : List Msg) :
    postCalls (Effect.startAgent deps :: ms.map Effect.renderMessage) = [] := by
  unfold postCalls
  rw [List.filterMap_eq_nil_iff]
  intro e he
  rcases List.mem_cons.mp he with rfl | hmap
  · rfl
  · rcases List.mem_map.mp hmap with ⟨m, _, rfl⟩
    rfl

theorem closeCount_append (l1 l2 : List Effect) :
    closeCount (l1 ++ l2) = closeCount l1 + closeCount l2 := by
  simp [closeCount, List.countP_append]

theorem closeCount_eq_zero (l : List Effect) (h : Effect.closeSandbox ∉ l) :
    closeCount l = 0 := by
  unfold closeCount
  rw [List.countP_eq_zero]
  intro e he
  simp only [decide_eq_true_eq]
  intro heq
  exact h (heq ▸ he)

/-! ## Approval-gate lemmas -/

/-- The gate posts exactly once, with the captured proposal, precisely when a
proposal is pending and the human answers affirmatively — regardless of
whether the post call itself then succeeds or fails. -/
theorem phase2_postCalls (owner repo : String) (n : Nat) (sha : String)
    (pending : Option Review) (resp : ApprovalResponse) (postResult : Except String String) :
    postCalls (phase2 owner repo n sha pending resp postResult).1 =
      (match pending, resp with
       | some r, ApprovalResponse.yes => [(owner, repo, n, sha, r)]
       | _, _ => []) := by
  cases pending <;> cases resp <;> cases postResult <;> rfl

/-- The gate never closes the sandbox itself. -/
theorem phase2_no_close (owner repo : String) (n : Nat) (sha : String)
    (pending : Option Review) (resp : ApprovalResponse) (postResult : Except String String) :
    Effect.closeSandbox ∉ (phase2 owner repo n sha pending resp postResult).1 := by
  cases pending <;> cases resp <;> cases postResult <;> simp [phase2, confirmAction]

/-- A pending proposal is always displayed, before the prompt and before any
posting decision. -/
theorem phase2_display (owner repo : String) (n : Nat) (sha : String) (r : Review)
    (resp : ApprovalResponse) (postResult : Except String String) :
    Effect.displayReview r ∈ (phase2 owner repo n sha (some r) resp postResult).1 := by
  cases resp <;> cases postResult <;> simp [phase2, confirmAction]

/-- The gate terminates the process (via `process.exit 0` inside
`confirmAction`) exactly when a proposal is pending and the prompt receives a
cancellation signal. -/
theorem phase2_exited_iff (owner repo : String) (n : Nat) (sha : String)
    (pending : Option Review) (resp : ApprovalResponse) (postResult : Except String String) :
    (phase2 owner repo n sha pending resp postResult).2 = Outcome.exited 0 ↔
      (pending.isSome = true ∧ resp = ApprovalResponse.cancelInterrupt) := by
  cases pending <;> cases resp <;> cases postResult <;> simp [phase2, confirmAction]

/-! ## Lemmas about `runReview` -/

theorem runReview_eq (owner repo : String) (pr : PRData) (deps : Bool)
    (stream : List Msg) (resp : ApprovalResponse) (postResult : Except String String) :
    runReview owner repo pr deps stream resp postResult =
      ((Effect.startAgent deps :: (processedMessages stream).map Effect.renderMessage) ++
        (phase2 owner repo pr.number pr.head.sha (capturedProposal stream) resp postResult).1,
       (phase2 owner repo pr.number pr.head.sha (capturedProposal stream) resp postResult).2) := rfl

theorem runReview_postCalls (owner repo : String) (pr : PRData) (deps : Bool)
    (stream : List Msg) (resp : ApprovalResponse) (postResult : Except String String) :
    postCalls (runReview owner repo pr deps stream resp postResult).1 =
      (match capturedProposal stream, resp with
       | some r, ApprovalResponse.yes => [(owner, repo, pr.number, pr.head.sha, r)]
       | _, _ => []) := by
  rw [runReview_eq]
  simp only [postCalls_append, postCalls_stream_effs, List.nil_append]
  exact phase2_postCalls owner repo pr.number pr.head.sha (capturedProposal stream) resp postResult

theorem runReview_no_close (owner repo : String) (pr : PRData) (deps : Bool)
    (stream : List Msg) (resp : ApprovalResponse) (postResult : Except String String) :
    Effect.closeSandbox ∉ (runReview owner repo pr deps stream resp postResult).1 := by
  rw [runReview_eq]
  intro hmem
  rcases List.mem_append.mp hmem with hl | hr
  · rcases List.mem_cons.mp hl with hc | hmap
    · exact Effect.noConfusion hc
    · rcases List.mem_map.mp hmap with ⟨m, _, hc⟩
      exact Effect.noConfusion hc
  · exact phase2_no_close owner repo pr.number pr.head.sha (capturedProposal stream)
      resp postResult hr

theorem runReview_exited_iff (owner repo : String) (pr : PRData) (deps : Bool)
    (stream : List Msg) (resp : ApprovalResponse) (postResult : Except String String) :
    (runReview owner repo pr deps stream resp postResult).2 = Outcome.exited 0 ↔
      ((capturedProposal stream).isSome = true ∧ resp = ApprovalResponse.cancelInterrupt) := by
  rw [runReview_eq]
  exact phase2_exited_iff owner repo pr.number pr.head.sha (capturedProposal stream)
    resp postResult

/-! ## Concrete inputs used by counterexamples and witnesses -/

def repo0 : PRRepo :=
  { full_name := "octo/demo", clone_url := "https://example.com/octo/demo.git" }

def pr0 : PRData :=
  { number := 7, title := "Fix parser", body := "",
    head := { ref := "feature", sha := "abc123", repo := repo0 },
    base := { ref := "main", sha := "def456", repo := repo0 },
    user := { login := "dev" }, html_url := "https://example.com/octo/demo/pull/7",
    additions := 1, deletions := 0, changed_files := 1 }

def forkRepo0 : PRRepo :=
  { full_name := "alice/demo", clone_url := "https://example.com/alice/demo.git" }

def prFork0 : PRData :=
  { pr0 with head := { ref := "fix", sha := "abc123", repo := forkRepo0 } }

def proposalA : Review :=
  { summary := "first proposal", verdict := Verdict.approve, comments := [] }

def proposalB : Review :=
  { summary := "second proposal", verdict := Verdict.comment, comments := [] }

/-- An AI message carrying one `submit_review` tool call. -/
def aiSubmitMsg (i : String) (r : Review) : Msg :=
  { id := some i, kind := MsgKind.ai, toolCalls := [ToolCall.submitReview r], content := "" }

def twoSubmitStream : List Msg := [aiSubmitMsg "msg-1" proposalA, aiSubmitMsg "msg-2" proposalB]

def oneSubmitStream : List Msg := [aiSubmitMsg "msg-1" proposalA]

/-- An executor on which every setup command succeeds. -/
def execOk : SetupCommand → ExecResult := fun _ => { exitCode := 0, output := "" }

def badComment : ReviewComment :=
  { path := "src/a.ts", line := 3, start_line := some 5, body := "range comment" }

def badReview : Review :=
  { summary := "inverted range", verdict := Verdict.comment, comments := [badComment] }

def badStream : List Msg := [aiSubmitMsg "msg-bad" badReview]

/-- The bound documented on `ReviewComment.start_line`: when present it must
be strictly below `line`. -/
def commentRangeValid (c : ReviewComment) : Bool :=
  match c.start_line with
  | some s => decide (s < c.line)
  | none => true

/-- A proposal all of whose comments satisfy the two-line range bound. -/
def proposalRangeValid (r : Review) : Bool :=
  r.comments.all commentRangeValid

/-! ## Claim C4 -/

/-- C4: the Agent Loop renders each message identifier at most once per run —
exactly once when the identifier occurs in the stream at all, however many
times it reappears — and every message that carries no identifier is always
rendered (never deduplicated away). -/
theorem c4_dedup_renders_each_id_once (stream : List Msg) :
    (∀ i : String, countId i (processedMessages stream) = min 1 (countId i stream)) ∧
    (processedMessages stream).filter (fun m => m.id.isNone) =
      stream.filter (fun m => m.id.isNone) := by
  constructor
  · intro i
    exact runStream_countId stream initLoopState i (by simp [initLoopState])
  · exact runStream_filter_noId stream initLoopState

/-! ## Claim C3 -/

/-- C3 counterexample: a stream carrying two `submit_review` invocations with
distinct payloads on distinct message ids ends with the SECOND payload
captured: the pausing tool call, once seen, IS overwritten by a later one in
the same run, so the captured proposal is not the first invocation's payload. -/
theorem c3_counterexample :
    capturedProposal twoSubmitStream = some proposalB ∧ proposalA ≠ proposalB := by
  exact ⟨rfl, by decide⟩

/-- C3 (amended): the captured proposal equals the argument payload of the
LAST `submit_review` invocation among the messages that pass replay
deduplication (a replayed message with an already-seen identifier never
overwrites it); when the stream carries a single such invocation, this
coincides with the first. -/
theorem c3_amended_last_submit_wins (stream : List Msg) :
    capturedProposal stream = lastOr (streamSubmits (processedMessages stream)) none :=
  runStream_pending stream initLoopState

/-! ## Claim C5 -/

/-- C5 counterexample: a proposal whose comment has `start_line = 5` and
`line = 3` (violating the documented `start_line < line` bound) is captured
unchanged and is displayed to the human — no rejection happens before
display, contradicting the claimed boundary check. -/
theorem c5_counterexample :
    proposalRangeValid badReview = false ∧
    capturedProposal badStream = some badReview ∧
    Effect.displayReview badReview ∈
      (runReview "octo" "demo" pr0 true badStream ApprovalResponse.no (Except.ok "url")).1 := by
  refine ⟨rfl, rfl, ?_⟩
  decide

/-- C5 (amended): no `start_line < line` validation is performed anywhere:
every captured proposal — including one whose comment violates the documented
bound — is displayed to the human unconditionally, and no proposal is
rejected before display. -/
theorem c5_amended_display_unconditional (owner repo : String) (pr : PRData) (deps : Bool)
    (stream : List Msg) (resp : ApprovalResponse) (postResult : Except String String)
    (r : Review) (h : capturedProposal stream = some r) :
    Effect.displayReview r ∈ (runReview owner repo pr deps stream resp postResult).1 := by
  rw [runReview_eq]
  refine List.mem_append.mpr (Or.inr ?_)
  rw [h]
  exact phase2_display owner repo pr.number pr.head.sha r resp postResult

/-- Witness for the amended C5 at a concrete violating proposal. -/
theorem c5_amended_witness :
    Effect.displayReview badReview ∈
      (runReview "octo" "demo" pr0 false badStream ApprovalResponse.yes (Except.ok "url")).1 :=
  c5_amended_display_unconditional "octo" "demo" pr0 false badStream ApprovalResponse.yes
    (Except.ok "url") badReview rfl

/-! ## Claim C1 -/

/-- C1: an external post occurs iff the Approval Gate reached APPROVED: the
trace of `postReviewToGitHub` calls of a run is exactly one call carrying the
captured proposal when setup succeeded, the agent loop did not throw, a
proposal was captured, and the human answered affirmatively — and is empty in
every other case (no proposal, non-affirmative or cancelled response, setup
failure, agent failure). -/
theorem c1_post_iff_approved (owner repo : String) (pr : PRData)
    (exec : SetupCommand → ExecResult) (agentThrows : Bool) (stream : List Msg)
    (resp : ApprovalResponse) (postResult : Except String String) :
    postCalls (mainRun owner repo pr exec agentThrows stream resp postResult).1 =
      (match (setupSandbox pr exec).2, agentThrows, capturedProposal stream, resp with
       | Except.ok _, false, some r, ApprovalResponse.yes =>
         [(owner, repo, pr.number, pr.head.sha, r)]
       | _, _, _, _ => []) := by
  unfold mainRun
  cases hsetup : (setupSandbox pr exec).2 with
  | error e =>
    cases agentThrows <;> cases capturedProposal stream <;> cases resp <;> rfl
  | ok setup =>
    cases agentThrows with
    | true => cases capturedProposal stream <;> cases resp <;> rfl
    | false =>
      rcases hr : runReview owner repo pr setup.depsInstalled stream resp postResult
        with ⟨effs, out⟩
      have hp := runReview_postCalls owner repo pr setup.depsInstalled stream resp postResult
      rw [hr] at hp
      cases out <;>
        cases hcp : capturedProposal stream <;>
          cases resp <;>
            simp_all [postCalls_append, postCalls]

/-! ## Claim C2 -/

/-- C2 counterexample: with a successful setup, a captured proposal, and a
cancellation signal at the approval prompt, the run terminates through
`process.exit(0)` inside `confirmAction`, the enclosing `finally` never runs,
and the sandbox close is attempted zero times — not once — on this exit path. -/
theorem c2_counterexample :
    closeCount (mainRun "octo" "demo" pr0 execOk false oneSubmitStream
      ApprovalResponse.cancelInterrupt (Except.ok "url")).1 = 0 ∧
    (mainRun "octo" "demo" pr0 execOk false oneSubmitStream
      ApprovalResponse.cancelInterrupt (Except.ok "url")).2 = Outcome.exited 0 :=
  ⟨rfl, rfl⟩

/-- C2 (amended): destruction of the sandbox is attempted exactly once on
every exit path on which the `finally` block runs — normal completion, fatal
setup error, agent-loop error, and human rejection — but it is NOT attempted
on a cancellation/interrupt signal during the approval prompt: there
`confirmAction` calls `process.exit(0)`, which terminates the process before
the `finally` block, and that exit arises exactly when setup succeeded, the
agent loop did not throw, a proposal was captured, and the prompt was
cancelled. -/
theorem c2_amended_close_on_noninterrupt_paths (owner repo : String) (pr : PRData)
    (exec : SetupCommand → ExecResult) (agentThrows : Bool) (stream : List Msg)
    (resp : ApprovalResponse) (postResult : Except String String) :
    (closeCount (mainRun owner repo pr exec agentThrows stream resp postResult).1 =
      (match (mainRun owner repo pr exec agentThrows stream resp postResult).2 with
       | Outcome.exited _ => 0
       | _ => 1)) ∧
    ((mainRun owner repo pr exec agentThrows stream resp postResult).2 = Outcome.exited 0 ↔
      ((∃ s, (setupSandbox pr exec).2 = Except.ok s) ∧ agentThrows = false ∧
        (capturedProposal stream).isSome = true ∧ resp = ApprovalResponse.cancelInterrupt)) := by
  cases agentThrows with
  | true =>
    unfold mainRun
    split
    next e heq =>
      exact ⟨rfl, by simp [heq]⟩
    next setup heq =>
      split
      next =>
        exact ⟨rfl, by simp⟩
      next hcontra =>
        exact absurd rfl hcontra
  | false =>
    unfold mainRun
    split
    next e heq =>
      exact ⟨rfl, by simp [heq]⟩
    next setup heq =>
      split
      next hcontra =>
        exact absurd hcontra (by simp)
      next =>
        rcases hr : runReview owner repo pr setup.depsInstalled stream resp postResult
          with ⟨effs, out⟩
        have hnc := runReview_no_close owner repo pr setup.depsInstalled stream resp postResult
        rw [hr] at hnc
        simp only at hnc
        have hz : closeCount effs = 0 := closeCount_eq_zero effs hnc
        have hex := runReview_exited_iff owner repo pr setup.depsInstalled stream resp postResult
        rw [hr] at hex
        simp only at hex
        cases out with
        | exited code =>
          constructor
          · exact hz
          · change Outcome.exited code = Outcome.exited 0 ↔ _
            constructor
            · intro h
              have hcode : code = 0 := by injection h
              refine ⟨⟨setup, heq⟩, rfl, hex.mp ?_⟩
              rw [hcode]
            · rintro ⟨_, _, hc⟩
              have h2 := hex.mpr hc
              have hcode : code = 0 := by injection h2
              rw [hcode]
        | ok a =>
          constructor
          · show closeCount (effs ++ [Effect.closeSandbox]) = 1
            rw [closeCount_append, hz]
            rfl
          · change Outcome.ok () = Outcome.exited 0 ↔ _
            constructor
            · intro h
              exact absurd h (by simp)
            · rintro ⟨_, _, hc⟩
              exact absurd (hex.mpr hc) (by simp)
        | err e =>
          constructor
          · show closeCount (effs ++ [Effect.closeSandbox]) = 1
            rw [closeCount_append, hz]
            rfl
          · change Outcome.err e = Outcome.exited 0 ↔ _
            constructor
            · intro h
              exact absurd h (by simp)
            · rintro ⟨_, _, hc⟩
              exact absurd (hex.mpr hc) (by simp)

/-- Witness for the amended C2 on the human-rejection path: the sandbox close
is attempted exactly once. -/
theorem c2_amended_witness :
    closeCount (mainRun "octo" "demo" pr0 execOk false oneSubmitStream
      ApprovalResponse.no (Except.ok "url")).1 = 1 := by
  rw [(c2_amended_close_on_noninterrupt_paths "octo" "demo" pr0 execOk false oneSubmitStream
    ApprovalResponse.no (Except.ok "url")).1]
  rfl

/-! ## Claim C6 -/

/-- C6: a failed branch fetch or checkout is fatal — `setupSandbox` throws and
the run cannot proceed — whereas a failed dependency install is non-fatal:
`setupSandbox` returns `depsInstalled := false` instead of throwing, and
`main` passes that degraded flag downstream into the Agent Loop. -/
theorem c6_fetch_checkout_fatal_install_degraded (pr : PRData)
    (exec : SetupCommand → ExecResult)
    (hremote : isFork pr = true → (exec (addRemoteCommand pr)).exitCode = 0) :
    ((exec (fetchCommand pr)).exitCode ≠ 0 →
      ∃ e, (setupSandbox pr exec).2 = Except.error e) ∧
    ((exec (fetchCommand pr)).exitCode = 0 → (exec (checkoutCommand pr)).exitCode ≠ 0 →
      ∃ e, (setupSandbox pr exec).2 = Except.error e) ∧
    ((exec (fetchCommand pr)).exitCode = 0 → (exec (checkoutCommand pr)).exitCode = 0 →
      (exec SetupCommand.pnpmInstall).exitCode ≠ 0 →
      (setupSandbox pr exec).2 = Except.ok { depsInstalled := false } ∧
      ∀ (owner repo : String) (stream : List Msg) (resp : ApprovalResponse)
        (postResult : Except String String),
        Effect.startAgent false ∈
          (mainRun owner repo pr exec false stream resp postResult).1) := by
  have hpre : ¬(isFork pr = true ∧ (exec (addRemoteCommand pr)).exitCode ≠ 0) := by
    rintro ⟨hf, hne⟩
    exact hne (hremote hf)
  refine ⟨?_, ?_, ?_⟩
  · intro hfetch
    unfold setupSandbox
    rw [if_neg hpre, if_pos hfetch]
    exact ⟨_, rfl⟩
  · intro hfetch hcheckout
    unfold setupSandbox
    rw [if_neg hpre, if_neg (by simpa using hfetch), if_pos hcheckout]
    exact ⟨_, rfl⟩
  · intro hfetch hcheckout hinstall
    have hsetup : (setupSandbox pr exec).2 = Except.ok { depsInstalled := false } := by
      unfold setupSandbox
      rw [if_neg hpre, if_neg (by simpa using hfetch), if_neg (by simpa using hcheckout),
        if_pos hinstall]
    refine ⟨hsetup, ?_⟩
    intro owner repo stream resp postResult
    unfold mainRun
    rw [hsetup]
    show Effect.startAgent false ∈
      (match runReview owner repo pr false stream resp postResult with
       | (effs, Outcome.exited code) => (effs, Outcome.exited code)
       | (effs, Outcome.ok _) => (effs ++ [Effect.closeSandbox], Outcome.ok ())
       | (effs, Outcome.err e) => (effs ++ [Effect.closeSandbox], Outcome.err e)).1
    rcases hr : runReview owner repo pr false stream resp postResult with ⟨effs, out⟩
    have hmem : Effect.startAgent false ∈ effs := by
      have hm : Effect.startAgent false ∈
          (runReview owner repo pr false stream resp postResult).1 := by
        rw [runReview_eq]
        exact List.mem_append.mpr (Or.inl (List.mem_cons_self _ _))
      rw [hr] at hm
      exact hm
    cases out with
    | exited code => exact hmem
    | ok a => exact List.mem_append.mpr (Or.inl hmem)
    | err e => exact List.mem_append.mpr (Or.inl hmem)

/-- An executor on which only `pnpm install` fails (simulated resource
exhaustion). -/
def execInstallFails : SetupCommand → ExecResult := fun c =>
  match c with
  | SetupCommand.pnpmInstall => { exitCode := 1, output := "OOM" }
  | _ => { exitCode := 0, output := "" }

/-- Witness for C6: on a run where only the install step fails, setup returns
the degraded flag instead of throwing. -/
theorem c6_witness :
    (setupSandbox pr0 execInstallFails).2 = Except.ok { depsInstalled := false } :=
  ((c6_fetch_checkout_fatal_install_degraded pr0 execInstallFails (by decide)).2.2
    (by decide) (by decide) (by decide)).1

/-! ## Claim C7 -/

/-- C7: for a fork-origin change request, setup first registers or updates the
`pr-fork` remote at the head repository's clone URL, then fetches the head ref
from that remote and the base ref from origin in parallel, then creates or
resets the local branch from the fork remote's head ref, then installs — and,
whatever the command outcomes, every checkout command issued targets the head
ref on the fork remote, never the base ref on origin. -/
theorem c7_fork_setup_sequence (pr : PRData)
    (hFork : pr.head.repo.full_name ≠ pr.base.repo.full_name)
    (exec : SetupCommand → ExecResult) (hok : ∀ c, (exec c).exitCode = 0) :
    (setupSandbox pr exec).1 =
      [SetupCommand.addOrSetRemote "pr-fork" pr.head.repo.clone_url,
       SetupCommand.parallelFetch "pr-fork" pr.head.ref "origin" pr.base.ref,
       SetupCommand.checkoutB pr.head.ref "pr-fork" pr.head.ref,
       SetupCommand.pnpmInstall] ∧
    (∀ (exec2 : SetupCommand → ExecResult) (b rem ref : String),
      SetupCommand.checkoutB b rem ref ∈ (setupSandbox pr exec2).1 →
        rem = "pr-fork" ∧ ref = pr.head.ref ∧ b = pr.head.ref) := by
  have hf : isFork pr = true := by
    simp [isFork, hFork]
  have hrem : headRemoteName pr = "pr-fork" := by
    simp [headRemoteName, hf]
  constructor
  · unfold setupSandbox
    rw [if_pos hf]
    rw [if_neg (by simp [hok]), if_neg (by simp [hok]), if_neg (by simp [hok]),
      if_neg (by simp [hok])]
    simp [addRemoteCommand, fetchCommand, checkoutCommand, hrem]
  · intro exec2 b rem ref hmem
    have hshape : ∀ c, c ∈ (setupSandbox pr exec2).1 →
        c = addRemoteCommand pr ∨ c = fetchCommand pr ∨ c = checkoutCommand pr ∨
          c = SetupCommand.pnpmInstall := by
      intro c hc
      unfold setupSandbox at hc
      rw [if_pos hf] at hc
      repeat' split at hc
      all_goals simp at hc
      all_goals tauto
    rcases hshape _ hmem with h | h | h | h
    · exact absurd h (by simp [addRemoteCommand])
    · exact absurd h (by simp [fetchCommand])
    · rw [checkoutCommand, hrem] at h
      injection h with h1 h2 h3
      exact ⟨h2, h3, h1⟩
    · exact absurd h (by simp)

/-- Witness for C7 on a concrete fork-origin PR where every command succeeds. -/
theorem c7_witness :
    (setupSandbox prFork0 execOk).1 =
      [SetupCommand.addOrSetRemote "pr-fork" forkRepo0.clone_url,
       SetupCommand.parallelFetch "pr-fork" "fix" "origin" "main",
       SetupCommand.checkoutB "fix" "pr-fork" "fix",
       SetupCommand.pnpmInstall] :=
  (c7_fork_setup_sequence prFork0 (by decide) execOk (fun _ => rfl)).1

/-! ## Claim C8 -/

/-- The steps after the dirty-tree guard keep every effect of the prefix they
are given. -/
theorem refreshAfterClean_pre_mem (env : VolumeEnv) (pre : List MaintEffect)
    (x : MaintEffect) (hx : x ∈ pre) : x ∈ (refreshAfterClean env pre).1 := by
  have hx2 : x ∈ pre ++ [MaintEffect.runTests] := List.mem_append.mpr (Or.inl hx)
  unfold refreshAfterClean
  split
  · split
    · exact List.mem_append.mpr (Or.inl hx2)
    · exact List.mem_append.mpr (Or.inl (List.mem_append.mpr (Or.inl hx2)))
  · exact List.mem_append.mpr (Or.inl hx2)

/-- C8: when the build leaves the source tree dirty, the maintenance refresh
forcibly resets the tree and re-verifies the clean state; if the tree is still
dirty after the reset, the refresh fails fatally and no snapshot is created;
conversely a snapshot is only ever created on a run whose dirty-tree check
passed (originally clean, or clean after the forced reset). -/
theorem c8_dirty_tree_guard (env : VolumeEnv) :
    (env.statusAfterBuild ≠ "" → MaintEffect.resetTree ∈ (refreshTail env).1) ∧
    (env.statusAfterBuild ≠ "" → env.statusAfterReset ≠ "" →
      (∃ e, (refreshTail env).2 = Except.error e) ∧
      MaintEffect.createSnapshot ∉ (refreshTail env).1) ∧
    (MaintEffect.createSnapshot ∈ (refreshTail env).1 →
      env.statusAfterBuild = "" ∨ env.statusAfterReset = "") := by
  refine ⟨?_, ?_, ?_⟩
  · intro h1
    unfold refreshTail
    rw [if_pos h1]
    by_cases h2 : env.statusAfterReset ≠ ""
    · rw [if_pos h2]
      exact List.mem_singleton.mpr rfl
    · rw [if_neg h2]
      exact refreshAfterClean_pre_mem env _ _ (List.mem_singleton.mpr rfl)
  · intro h1 h2
    unfold refreshTail
    rw [if_pos h1, if_pos h2]
    exact ⟨⟨_, rfl⟩, by simp⟩
  · intro hmem
    by_cases h1 : env.statusAfterBuild = ""
    · exact Or.inl h1
    · by_cases h2 : env.statusAfterReset = ""
      · exact Or.inr h2
      · exfalso
        unfold refreshTail at hmem
        rw [if_pos h1, if_pos h2] at hmem
        simp at hmem

/-- An environment whose tree stays dirty even after the forced reset. -/
def envStillDirty : VolumeEnv :=
  { statusAfterBuild := " M package.json", statusAfterReset := " M package.json",
    testsPass := true, hasExistingSnapshot := false,
    deleteOutcome := fun _ => DeleteOutcome.success }

/-- Witness for C8: on a run that stays dirty after the reset, no snapshot is
published. -/
theorem c8_witness :
    MaintEffect.createSnapshot ∉ (refreshTail envStillDirty).1 :=
  ((c8_dirty_tree_guard envStillDirty).2.1 (by decide) (by decide)).2

/-! ## Claim C9 -/

/-- Number of snapshot-deletion attempts recorded in a maintenance trace. -/
def attemptCount (effs : List MaintEffect) : Nat :=
  effs.countP fun e =>
    match e with
    | MaintEffect.deleteSnapshotAttempt _ => true
    | _ => false

/-- The backoff waits (in seconds) recorded in a maintenance trace, in order. -/
def backoffWaits (effs : List MaintEffect) : List Nat :=
  effs.filterMap fun e =>
    match e with
    | MaintEffect.backoffWait s => some s
    | _ => none

theorem deleteLoopAux_succ (outcome : Nat → DeleteOutcome) (a r : Nat) :
    deleteLoopAux outcome a (r + 1) =
      (match outcome a with
       | DeleteOutcome.success => ([MaintEffect.deleteSnapshotAttempt a], Except.ok ())
       | DeleteOutcome.failure status code =>
         if isRetryable status code ∧ a < MAX_RETRIES then
           (MaintEffect.deleteSnapshotAttempt a :: MaintEffect.backoffWait (a * 5)
             :: (deleteLoopAux outcome (a + 1) r).1,
            (deleteLoopAux outcome (a + 1) r).2)
         else
           ([MaintEffect.deleteSnapshotAttempt a],
             Except.error "Snapshot deletion failed")) := rfl

theorem deleteLoopAux_succ_success (outcome : Nat → DeleteOutcome) (a r : Nat)
    (h : outcome a = DeleteOutcome.success) :
    deleteLoopAux outcome a (r + 1) =
      ([MaintEffect.deleteSnapshotAttempt a], Except.ok ()) := by
  rw [deleteLoopAux_succ, h]

theorem deleteLoopAux_succ_failure (outcome : Nat → DeleteOutcome) (a r status : Nat)
    (code : Option String) (h : outcome a = DeleteOutcome.failure status code) :
    deleteLoopAux outcome a (r + 1) =
      (if isRetryable status code ∧ a < MAX_RETRIES then
        (MaintEffect.deleteSnapshotAttempt a :: MaintEffect.backoffWait (a * 5)
          :: (deleteLoopAux outcome (a + 1) r).1,
         (deleteLoopAux outcome (a + 1) r).2)
      else
        ([MaintEffect.deleteSnapshotAttempt a], Except.error "Snapshot deletion failed")) := by
  rw [deleteLoopAux_succ, h]

theorem deleteLoopAux_attempts (outcome : Nat → DeleteOutcome) (r a : Nat) :
    attemptCount (deleteLoopAux outcome a r).1 ≤ r := by
  induction r generalizing a with
  | zero => simp [deleteLoopAux, attemptCount]
  | succ r ih =>
    rcases houtcome : outcome a with _ | ⟨status, code⟩
    · rw [deleteLoopAux_succ_success outcome a r houtcome]
      simp [attemptCount]
    · rw [deleteLoopAux_succ_failure outcome a r status code houtcome]
      split
      · have hrec := ih (a + 1)
        show attemptCount (MaintEffect.deleteSnapshotAttempt a ::
          MaintEffect.backoffWait (a * 5) :: (deleteLoopAux outcome (a + 1) r).1) ≤ r + 1
        have h2 : attemptCount (MaintEffect.deleteSnapshotAttempt a ::
            MaintEffect.backoffWait (a * 5) :: (deleteLoopAux outcome (a + 1) r).1) =
            attemptCount (deleteLoopAux outcome (a + 1) r).1 + 1 := by
          simp [attemptCount, List.countP_cons]
        rw [h2]
        omega
      · show attemptCount [MaintEffect.deleteSnapshotAttempt a] ≤ r + 1
        simp [attemptCount]

theorem deleteLoopAux_waits (outcome : Nat → DeleteOutcome) (r a : Nat) :
    List.Chain' (fun x y => x < y) (backoffWaits (deleteLoopAux outcome a r).1) ∧
    (∀ w ∈ backoffWaits (deleteLoopAux outcome a r).1, a * 5 ≤ w) := by
  induction r generalizing a with
  | zero => simp [deleteLoopAux, backoffWaits]
  | succ r ih =>
    rcases houtcome : outcome a with _ | ⟨status, code⟩
    · rw [deleteLoopAux_succ_success outcome a r houtcome]
      simp [backoffWaits]
    · rw [deleteLoopAux_succ_failure outcome a r status code houtcome]
      split
      · obtain ⟨hchain, hbound⟩ := ih (a + 1)
        have hws : backoffWaits ((MaintEffect.deleteSnapshotAttempt a ::
            MaintEffect.backoffWait (a * 5) :: (deleteLoopAux outcome (a + 1) r).1,
            (deleteLoopAux outcome (a + 1) r).2).1) =
            a * 5 :: backoffWaits (deleteLoopAux outcome (a + 1) r).1 := by
          simp [backoffWaits, List.filterMap_cons]
        rw [hws]
        constructor
        · rw [List.chain'_cons']
          refine ⟨?_, hchain⟩
          intro y hy
          have hy2 : (a + 1) * 5 ≤ y := hbound y (List.mem_of_mem_head? hy)
          omega
        · intro w hw
          rcases List.mem_cons.mp hw with rfl | hw
          · exact Nat.le_refl _
          · have := hbound w hw
            omega
      · simp [backoffWaits]

/-- Deletion outcomes of Scenario F: `SnapshotInUse` three times, then
success. -/
def snapshotInUseThrice : Nat → DeleteOutcome := fun attempt =>
  if attempt ≤ 3 then DeleteOutcome.failure 409 (some "SNAPSHOT_IN_USE")
  else DeleteOutcome.success

/-- A refresh whose tree is clean and whose old-snapshot deletion fails three
times with `SnapshotInUse` before succeeding. -/
def envInUseThrice : VolumeEnv :=
  { statusAfterBuild := "", statusAfterReset := "", testsPass := true,
    hasExistingSnapshot := true, deleteOutcome := snapshotInUseThrice }

/-- C9: old-snapshot deletion is retried with bounded attempts (at most
`MAX_RETRIES`) and strictly increasing backoff; in particular a refresh whose
deletion fails three times with `SnapshotInUse` and then succeeds completes
without escalating an error — waiting 5, 10, then 15 seconds — and still
creates the new snapshot. -/
theorem c9_snapshot_delete_retry :
    (∀ outcome : Nat → DeleteOutcome,
      attemptCount (snapshotDeleteRetry outcome).1 ≤ MAX_RETRIES) ∧
    (∀ outcome : Nat → DeleteOutcome,
      List.Chain' (fun x y => x < y) (backoffWaits (snapshotDeleteRetry outcome).1)) ∧
    (refreshTail envInUseThrice).2 = Except.ok () ∧
    MaintEffect.createSnapshot ∈ (refreshTail envInUseThrice).1 ∧
    backoffWaits (refreshTail envInUseThrice).1 = [5, 10, 15] := by
  refine ⟨fun o => deleteLoopAux_attempts o MAX_RETRIES 1,
    fun o => (deleteLoopAux_waits o MAX_RETRIES 1).1, rfl, by decide, rfl⟩

/-! ## Claim C10 -/

/-- C10: the request body posted to GitHub carries a `comments` array exactly
when the proposal has at least one comment; each transmitted comment is
`{ path, line, side := "RIGHT", body }` of a proposal comment; and
`start_line` is never transmitted — two comments differing only in
`start_line` map to the same posted comment. -/
theorem c10_posted_comment_shape (commitSha : String) (review : Review) :
    ((postReviewRequestBody commitSha review).comments = none ↔ review.comments = []) ∧
    (∀ l, (postReviewRequestBody commitSha review).comments = some l →
      l = review.comments.map transmitComment ∧
      ∀ tc ∈ l, tc.side = "RIGHT" ∧
        ∃ c ∈ review.comments,
          tc = { path := c.path, line := c.line, side := "RIGHT", body := c.body }) ∧
    (∀ (c : ReviewComment) (s : Option Nat),
      transmitComment { c with start_line := s } = transmitComment c) := by
  refine ⟨?_, ?_, fun c s => rfl⟩
  · unfold postReviewRequestBody
    cases hc : review.comments with
    | nil => simp
    | cons c cs => simp [hc]
  · intro l hl
    unfold postReviewRequestBody at hl
    cases hc : review.comments with
    | nil =>
      rw [hc] at hl
      simp at hl
    | cons c cs =>
      rw [hc] at hl
      have hl2 : l = (c :: cs).map transmitComment := by
        simp only [List.length_cons, gt_iff_lt, Nat.succ_pos, if_pos,
          Option.some.injEq] at hl
        exact hl.symm
      constructor
      · exact hl2
      · intro tc htc
        rw [hl2] at htc
        rcases List.mem_map.mp htc with ⟨c2, hc2, rfl⟩
        exact ⟨rfl, c2, hc2, rfl⟩

/-- A proposal with a single comment, for the C10 witness. -/
def exampleComment : ReviewComment :=
  { path := "src/utils/parser.ts", line := 42, start_line := some 40, body := "nit" }

def oneCommentReview : Review :=
  { summary := "one comment", verdict := Verdict.request_changes,
    comments := [exampleComment] }

/-- Witness for C10 at a concrete one-comment proposal. -/
theorem c10_witness :
    [transmitComment exampleComment] = oneCommentReview.comments.map transmitComment ∧
    ∀ tc ∈ [transmitComment exampleComment], tc.side = "RIGHT" ∧
      ∃ c ∈ oneCommentReview.comments,
        tc = { path := c.path, line := c.line, side := "RIGHT", body := c.body } :=
  (c10_posted_comment_shape "sha0" oneCommentReview).2.1
    [transmitComment exampleComment] rfl

end ReviewSpec
